import Mathlib

/-!
Verification of the "Test Execution & Assertion Core" of an assertion-based
conformance tester for tool-using conversational agents.

The development shallowly embeds the TypeScript source:

* `src/assertions/tools.ts`   — forbid/require tool assertions (`assertRequiredTools`,
  `assertCount`, `assertArgsMatch`, `assertOrdering`, `getNestedValue`)
* `src/assertions/timing.ts`  — idle-gap computation and timing assertions
  (`computeIdleGaps`, `assertTiming`)
* the text evaluator (`assertText`) and the pattern-matcher utilities
  (`stringify`, `parsePattern`, `matchesPattern`)
* the assertion merge engine (`mergeTimingAssert`, `mergeTextAssert`,
  `mergeToolsAssert`, `mergeAssertBlocks`)
* the event reconstructor (`handleEvent`, `collectTurnData` from
  `src/runner/turn.ts`, the event-timestamped version)

JavaScript numbers are modelled as `Int` (all values in scope are integral
millisecond timestamps and counts).  The platform primitives `JSON.parse` and
`RegExp.prototype.test` are not part of the repository; they are passed as
explicit parameters (`jparse`) or modelled for metacharacter-free regex
sources (`litRegexTest`, unanchored substring search, which coincides with
JavaScript semantics for the literal patterns exercised here).
-/

namespace Ananke

/-- JSON values.  `JSON.parse` may return any of these, so fields typed
`Record<string, unknown>` in TypeScript can hold any `Json` at runtime. -/
inductive Json where
  | str (s : String)
  | num (n : Int)
  | bool (b : Bool)
  | null
  | arr (xs : List Json)
  | obj (kvs : List (String × Json))
deriving Repr

/-- Hexadecimal digit for control-character escapes. -/
def hexDigit (n : Nat) : Char :=
  if n < 10 then Char.ofNat (48 + n) else Char.ofNat (87 + n)

/-- Escape one character the way `JSON.stringify` escapes string contents. -/
def jsonEscapeChar (c : Char) : List Char :=
  if c = '"' then ['\\', '"']
  else if c = '\\' then ['\\', '\\']
  else if c = '\n' then ['\\', 'n']
  else if c = '\r' then ['\\', 'r']
  else if c = '\t' then ['\\', 't']
  else if c = '\x08' then ['\\', 'b']
  else if c = '\x0c' then ['\\', 'f']
  else if c.toNat < 32 then
    ['\\', 'u', '0', '0', hexDigit (c.toNat / 16), hexDigit (c.toNat % 16)]
  else [c]

/-- Quote a string as a JSON string literal. -/
def jsonQuote (s : String) : String :=
  "\"" ++ String.mk (s.data.flatMap jsonEscapeChar) ++ "\""

mutual

/-- Model of `JSON.stringify` on `Json` values. -/
def jsonStringify : Json → String
  | .str s => jsonQuote s
  | .num n => toString n
  | .bool b => cond b "true" "false"
  | .null => "null"
  | .arr xs => "[" ++ jsonStringifyList xs ++ "]"
  | .obj kvs => "\x7b" ++ jsonStringifyKVs kvs ++ "\x7d"

/-- Comma-separated serialization of array elements. -/
def jsonStringifyList : List Json → String
  | [] => ""
  | [x] => jsonStringify x
  | x :: y :: rest => jsonStringify x ++ "," ++ jsonStringifyList (y :: rest)

/-- Comma-separated serialization of object members. -/
def jsonStringifyKVs : List (String × Json) → String
  | [] => ""
  | [(k, v)] => jsonQuote k ++ ":" ++ jsonStringify v
  | (k, v) :: e :: rest =>
      jsonQuote k ++ ":" ++ jsonStringify v ++ "," ++ jsonStringifyKVs (e :: rest)

end

/-- Source embedding of `stringify` (pattern-matcher utils): strings pass
through, `null`/`undefined` become literal tokens, everything else is
JSON-serialized.  An `Option Json` argument of `none` models `undefined`. -/
def stringify (value : Option Json) : String :=
  match value with
  | some (.str s) => s
  | none => "undefined"
  | some .null => "null"
  | some v => jsonStringify v

/-- Characters accepted by the flags group `[gimsuy]*` of the pattern syntax. -/
def flagChar (c : Char) : Bool :=
  c == 'g' || c == 'i' || c == 'm' || c == 's' || c == 'u' || c == 'y'

/-- Characters matched by `.` in a JavaScript regex without the `s` flag
(everything except line terminators). -/
def dotChar (c : Char) : Bool :=
  !(c == '\n' || c == '\r' || c == ' ' || c == ' ')

/-- Split a character list at the last occurrence of `'/'`; returns the parts
before and after it.  This realizes the greedy match of `^\/(.+)\/([gimsuy]*)$`:
the greedy `.+` forces the delimiting slash to be the last one. -/
def splitLastSlash : List Char → Option (List Char × List Char)
  | [] => none
  | c :: cs =>
      match splitLastSlash cs with
      | some (b, f) => some (c :: b, f)
      | none => if c == '/' then some ([], cs) else none

/-- Source embedding of `parsePattern`: returns the regex source and flags.
A pattern of the form `/body/flags` (matched against `^\/(.+)\/([gimsuy]*)$`)
yields `(body, flags)`; anything else is a regex source with empty flags. -/
def parsePattern (pattern : String) : String × String :=
  match pattern.data with
  | '/' :: rest =>
      match splitLastSlash rest with
      | some (body, flags) =>
          if !body.isEmpty && body.all dotChar && flags.all flagChar then
            (String.mk body, String.mk flags)
          else (pattern, "")
      | none => (pattern, "")
  | _ => (pattern, "")

/-- Model of `new RegExp(source).test(input)` for metacharacter-free sources:
unanchored substring search.  Flags are ignored (none of the flag-free literal
patterns exercised here are affected by flags). -/
def litRegexTest (source : String) (input : String) : Bool :=
  decide (source.data <:+: input.data)

/-- A regex engine abstracts `new RegExp(source, flags).test(input)`. -/
def RegexEngine : Type := String → String → String → Bool

/-- The literal-pattern regex engine built on `litRegexTest`. -/
def litEngine : RegexEngine := fun source _flags input => litRegexTest source input

/-- Source embedding of `matchesPattern`: stringify the value, parse the
pattern, test with the regex engine. -/
def matchesPattern (engine : RegexEngine) (value : Option Json) (pattern : String) : Bool :=
  let str := stringify value
  let (source, flags) := parsePattern pattern
  engine source flags str

/-! ## Tool-call data model (`src/types/data.ts`) -/

/-- A finalized tool call.  `args` is the JSON parsed from the streamed
argument buffer (`JSON.parse` may return any JSON value at runtime, so the
field is `Json` rather than an object shape); `result` is the parsed result
payload or the raw string wrapped as `Json.str`. -/
structure ToolCall where
  name : String
  args : Json
  result : Json
  timestamp : Int
deriving Repr

/-- Outcome record produced by every assertion check
(`src/assertions/types.ts`). -/
structure AssertionResult where
  passed : Bool
  assertion : String
  expected : Option String := none
  actual : Option String := none
  details : Option String := none
deriving DecidableEq, Repr

/-- Count constraint of a `RequireTool`: `{exact: N}` or `{min?, max?}`
(discriminated in the source by `'exact' in constraint`). -/
inductive CountConstraint where
  | exact (n : Int)
  | minmax (min : Option Int) (max : Option Int)

/-- One `require` entry of a tools assertion block. -/
structure RequireTool where
  name : String
  count : Option CountConstraint := none
  args_match : Option (List (String × String)) := none
  result_match : Option String := none
  result_not_match : Option String := none
  after : Option String := none

/-- One `forbid_calls` entry of a tools assertion block. -/
structure ForbidCall where
  name : String
  args_match : Option (List (String × String)) := none
  result_match : Option String := none

/-! ## Tool assertions (`src/assertions/tools.ts`)

The evaluators are parameterized by `rtest : String → String → Bool`
modelling `new RegExp(pattern).test(str)` (this file of the source compiles
patterns directly, without `parsePattern`). -/

/-- Model of `path.split('.')` on character lists (splits at every dot,
preserving empty segments, as `String.prototype.split` does). -/
def splitDots : List Char → List (List Char)
  | [] => [[]]
  | c :: cs =>
      let r := splitDots cs
      if c == '.' then [] :: r
      else
        match r with
        | h :: t => (c :: h) :: t
        | [] => [[c]]

/-- Property access `current[part]` for object values; returns `none`
(undefined) when the key is absent. -/
def jsLookup (kvs : List (String × Json)) (part : String) : Option Json :=
  ((kvs.find? (fun e => e.1 == part)).map (fun e => e.2))

/-- Property access `current[part]` for array values: only a canonical
numeric string within bounds denotes an element. -/
def jsIndex (xs : List Json) (part : String) : Option Json :=
  match part.toNat? with
  | some n => if toString n == part then xs.get? n else none
  | none => none

/-- Walk of the dot-separated path in `getNestedValue`: `null`/`undefined`
and non-object intermediates yield undefined. -/
def getNestedWalk : Option Json → List (List Char) → Option Json
  | cur, [] => cur
  | cur, part :: rest =>
      match cur with
      | none => none
      | some .null => none
      | some (.obj kvs) => getNestedWalk (jsLookup kvs (String.mk part)) rest
      | some (.arr xs) => getNestedWalk (jsIndex xs (String.mk part)) rest
      | some _ => none

/-- Source embedding of `getNestedValue(obj, path)`. -/
def getNestedValue (obj : Json) (path : String) : Option Json :=
  getNestedWalk (some obj) (splitDots path.data)

/-- Source embedding of `stringifyResult`: raw strings pass through,
everything else is JSON-serialized. -/
def stringifyResult (result : Json) : String :=
  match result with
  | .str s => s
  | r => jsonStringify r

/-- Source embedding of `assertCount`: `exact` requires equality, `min`/`max`
are independent optional bounds (checked in that order). -/
def assertCount (toolName : String) (count : Int) (constraint : CountConstraint) :
    Option AssertionResult :=
  match constraint with
  | .exact n =>
      if count ≠ n then
        some { passed := false, assertion := "Tool \"" ++ toolName ++ "\" count",
               expected := some ("exactly " ++ toString n), actual := some (toString count) }
      else none
  | .minmax min max =>
      match min, max with
      | some m, _ =>
          if count < m then
            some { passed := false, assertion := "Tool \"" ++ toolName ++ "\" count",
                   expected := some ("at least " ++ toString m), actual := some (toString count) }
          else
            match max with
            | some x =>
                if count > x then
                  some { passed := false, assertion := "Tool \"" ++ toolName ++ "\" count",
                         expected := some ("at most " ++ toString x), actual := some (toString count) }
                else none
            | none => none
      | none, some x =>
          if count > x then
            some { passed := false, assertion := "Tool \"" ++ toolName ++ "\" count",
                   expected := some ("at most " ++ toString x), actual := some (toString count) }
          else none
      | none, none => none

/-- Source embedding of `assertArgsMatch`: per argument pattern, fail when the
dot path is undefined or the (stringified) value does not match. -/
def assertArgsMatch (rtest : String → String → Bool) (toolName : String) (call : ToolCall)
    (argsMatch : List (String × String)) : List AssertionResult :=
  argsMatch.filterMap (fun kp =>
    let key := kp.1
    let pattern := kp.2
    match getNestedValue call.args key with
    | none =>
        some { passed := false,
               assertion := "Tool \"" ++ toolName ++ "\" arg \"" ++ key ++ "\" must match /" ++ pattern ++ "/",
               expected := some ("argument \"" ++ key ++ "\" present"),
               actual := some "argument not found" }
    | some value =>
        let valueStr := match value with | .str s => s | v => jsonStringify v
        if rtest pattern valueStr then none
        else
          some { passed := false,
                 assertion := "Tool \"" ++ toolName ++ "\" arg \"" ++ key ++ "\" must match /" ++ pattern ++ "/",
                 expected := some ("match /" ++ pattern ++ "/"),
                 actual := some valueStr })

/-- Model of `Array.prototype.findIndex`: index of the first witness, `-1`
when there is none. -/
def findIndexJS (toolCalls : List ToolCall) (p : ToolCall → Bool) : Int :=
  match toolCalls.findIdx? p with
  | some i => (i : Int)
  | none => -1

/-- Source embedding of `assertOrdering`: `findIndex` yields `-1` when the
tool is absent; fail when the predecessor is absent or the required tool's
first index precedes the predecessor's. -/
def assertOrdering (toolCalls : List ToolCall) (toolName : String) (afterTool : String) :
    Option AssertionResult :=
  let afterIndex : Int := findIndexJS toolCalls (fun tc => tc.name == afterTool)
  let toolIndex : Int := findIndexJS toolCalls (fun tc => tc.name == toolName)
  if afterIndex == -1 then
    some { passed := false,
           assertion := "Tool \"" ++ toolName ++ "\" must be called after \"" ++ afterTool ++ "\"",
           expected := some ("\"" ++ afterTool ++ "\" called first"),
           actual := some ("\"" ++ afterTool ++ "\" not called") }
  else if toolIndex < afterIndex then
    some { passed := false,
           assertion := "Tool \"" ++ toolName ++ "\" must be called after \"" ++ afterTool ++ "\"",
           expected := some ("\"" ++ toolName ++ "\" after \"" ++ afterTool ++ "\""),
           actual := some ("\"" ++ toolName ++ "\" called before \"" ++ afterTool ++ "\"") }
  else none

/-- Checks of `assertRequiredTools` for one `require` entry, in source order:
zero-calls short-circuit, then count, per-call args_match, result_match,
per-call result_not_match, ordering.  String-typed fields are skipped when
empty (JavaScript truthiness guards). -/
def assertRequireEntry (rtest : String → String → Bool) (toolCalls : List ToolCall)
    (req : RequireTool) : List AssertionResult :=
  let matchingCalls := toolCalls.filter (fun tc => tc.name == req.name)
  if matchingCalls.length == 0 then
    [{ passed := false, assertion := "Tool \"" ++ req.name ++ "\" must be called",
       expected := some "at least 1 call", actual := some "0 calls" }]
  else
    (match req.count with
     | some c => (assertCount req.name (matchingCalls.length : Int) c).toList
     | none => [])
    ++ (match req.args_match with
        | some am => matchingCalls.flatMap (fun call => assertArgsMatch rtest req.name call am)
        | none => [])
    ++ (match req.result_match with
        | some p =>
            if p == "" then []
            else if matchingCalls.any (fun call => rtest p (stringifyResult call.result)) then []
            else
              [{ passed := false,
                 assertion := "Tool \"" ++ req.name ++ "\" result must match /" ++ p ++ "/",
                 expected := some ("match /" ++ p ++ "/"),
                 actual := some (String.intercalate ", "
                   (matchingCalls.map (fun c => stringifyResult c.result))) }]
        | none => [])
    ++ (match req.result_not_match with
        | some p =>
            if p == "" then []
            else matchingCalls.filterMap (fun call =>
              let resultStr := stringifyResult call.result
              if rtest p resultStr then
                some { passed := false,
                       assertion := "Tool \"" ++ req.name ++ "\" result must not match /" ++ p ++ "/",
                       expected := some ("not match /" ++ p ++ "/"),
                       actual := some resultStr }
              else none)
        | none => [])
    ++ (match req.after with
        | some a => if a == "" then [] else (assertOrdering toolCalls req.name a).toList
        | none => [])

/-- Source embedding of `assertRequiredTools`: evaluate every `require` entry
independently and concatenate the failures. -/
def assertRequiredTools (rtest : String → String → Bool) (toolCalls : List ToolCall)
    (required : List RequireTool) : List AssertionResult :=
  required.flatMap (assertRequireEntry rtest toolCalls)

/-! ## Timing evaluator (`src/assertions/timing.ts`) -/

/-- A timing scalar is a number or the explicit literal `false`
(which disables an inherited constraint). -/
inductive NumOrFalse where
  | num (n : Int)
  | fls
deriving DecidableEq, Repr

/-- Timing constraints / timing assertion block: both TypeScript declarations
(`TimingConstraints` in `timing.ts`, `TimingAssert` in `types/test.ts`) have
this same shape. -/
structure TimingAssert where
  max_duration_ms : Option NumOrFalse := none
  max_idle_ms : Option NumOrFalse := none
deriving DecidableEq, Repr

/-- The timing window and tool calls an evaluation runs over. -/
structure TimingContext where
  startTs : Int
  endTs : Int
  toolCalls : List ToolCall

/-- An idle gap between two named points of the window
(`from`/`to` in the source). -/
structure IdleGap where
  gapFrom : String
  gapTo : String
  duration : Int
deriving DecidableEq, Repr

/-- Gaps from one call to each subsequent call and finally to the window end:
the loop body and trailing push of `computeIdleGaps`. -/
def gapsFrom (ctx : TimingContext) (prev : ToolCall) : List ToolCall → List IdleGap
  | [] => [{ gapFrom := prev.name, gapTo := "end", duration := ctx.endTs - prev.timestamp }]
  | c :: cs =>
      { gapFrom := prev.name, gapTo := c.name, duration := c.timestamp - prev.timestamp }
        :: gapsFrom ctx c cs

/-- Source embedding of `computeIdleGaps`: sort ascending by timestamp (the
source uses the stable `Array.prototype.sort`; stable insertion sort agrees
with it); zero calls give one whole-window gap, otherwise start→first,
consecutive pairs, last→end. -/
def computeIdleGaps (ctx : TimingContext) : List IdleGap :=
  let sorted := List.insertionSort (fun a b => a.timestamp ≤ b.timestamp) ctx.toolCalls
  match sorted with
  | [] => [{ gapFrom := "start", gapTo := "end", duration := ctx.endTs - ctx.startTs }]
  | first :: rest =>
      { gapFrom := "start", gapTo := first.name, duration := first.timestamp - ctx.startTs }
        :: gapsFrom ctx first rest

/-- Source embedding of `assertTiming`: duration check then idle check, each
skipped when the constraint is unset or `false`; one failure per idle gap
exceeding the bound. -/
def assertTiming (ctx : TimingContext) (constraints : TimingAssert) : List AssertionResult :=
  (match constraints.max_duration_ms with
   | some (.num d) =>
       let duration := ctx.endTs - ctx.startTs
       if duration > d then
         [{ passed := false, assertion := "Duration constraint",
            expected := some ("≤ " ++ toString d ++ "ms"),
            actual := some (toString duration ++ "ms") }]
       else []
   | _ => [])
  ++ (match constraints.max_idle_ms with
      | some (.num d) =>
          (computeIdleGaps ctx).filterMap (fun gap =>
            if gap.duration > d then
              some { passed := false, assertion := "Idle constraint",
                     expected := some ("≤ " ++ toString d ++ "ms"),
                     actual := some (toString gap.duration ++ "ms between \"" ++ gap.gapFrom
                       ++ "\" and \"" ++ gap.gapTo ++ "\"") }
            else none)
      | _ => [])

/-! ## Text evaluator (`src/assertions/text.ts`) -/

/-- A pattern field is a single pattern or a list (`string | string[]`). -/
inductive StrOrList where
  | one (s : String)
  | list (l : List String)
deriving DecidableEq, Repr

/-- Text assertion block (`must_match` / `must_not_match`). -/
structure TextAssert where
  must_match : Option StrOrList := none
  must_not_match : Option StrOrList := none
deriving DecidableEq, Repr

/-- Source embedding of `normalizeToArray`: falsy values (absent field or
empty string) give `[]`, a single pattern wraps, a list passes through. -/
def normalizeToArray (value : Option StrOrList) : List String :=
  match value with
  | none => []
  | some (.one s) => if s == "" then [] else [s]
  | some (.list l) => l

/-- Source embedding of `assertText`: one failure per `must_match` pattern not
matching the text and one per `must_not_match` pattern matching it; failures
carry a bounded (100-character, ellipsis-terminated) text preview. -/
def assertText (engine : RegexEngine) (text : String) (constraints : TextAssert) :
    List AssertionResult :=
  let truncatedText := if text.length > 100 then (text.take 100) ++ "..." else text
  ((normalizeToArray constraints.must_match).filterMap (fun pattern =>
    if matchesPattern engine (some (.str text)) pattern then none
    else
      some { passed := false, assertion := "Text must match",
             expected := some ("match /" ++ pattern ++ "/"),
             actual := some truncatedText }))
  ++ ((normalizeToArray constraints.must_not_match).filterMap (fun pattern =>
    if matchesPattern engine (some (.str text)) pattern then
      some { passed := false, assertion := "Text must not match",
             expected := some ("not match /" ++ pattern ++ "/"),
             actual := some truncatedText }
    else none))

/-! ## Assertion merge engine (`merge.ts`) -/

/-- Tools assertion block: all three fields optional arrays. -/
structure ToolsAssert where
  forbid : Option (List String) := none
  require : Option (List RequireTool) := none
  forbid_calls : Option (List ForbidCall) := none

/-- An assertion block declarable at target/test/turn scope; every category
optional. -/
structure AssertBlock where
  tools : Option ToolsAssert := none
  timing : Option TimingAssert := none
  text : Option TextAssert := none

/-- The effective block produced by a merge: all three categories present. -/
structure MergedAssertBlock where
  tools : ToolsAssert
  timing : TimingAssert
  text : TextAssert

/-- Assignment `merged.f = level.f` guarded by `level.f !== undefined`. -/
def pickField (newVal oldVal : Option NumOrFalse) : Option NumOrFalse :=
  match newVal with
  | some v => some v
  | none => oldVal

/-- Loop of `mergeTimingAssert` over the scope levels, lowest precedence
first; each explicitly set field overwrites the accumulator. -/
def mergeTimingGo (merged : TimingAssert) : List (Option TimingAssert) → TimingAssert
  | [] => merged
  | none :: rest => mergeTimingGo merged rest
  | some level :: rest =>
      mergeTimingGo
        { max_duration_ms := pickField level.max_duration_ms merged.max_duration_ms,
          max_idle_ms := pickField level.max_idle_ms merged.max_idle_ms }
        rest

/-- Source embedding of `mergeTimingAssert` (scalars override, `false`
counts as explicitly set). -/
def mergeTimingAssert (levels : List (Option TimingAssert)) : TimingAssert :=
  mergeTimingGo {} levels

/-- JavaScript truthiness of a `string | string[] | undefined` field
(arrays are always truthy, the empty string is falsy). -/
def strOrListTruthy (v : Option StrOrList) : Bool :=
  match v with
  | none => false
  | some (.one s) => !(s == "")
  | some (.list _) => true

/-- Accumulation of one pattern field over the scope levels in order
(the `push(...normalizeToArray(...))` loop of `mergeTextAssert`). -/
def collectPatterns (field : TextAssert → Option StrOrList) :
    List (Option TextAssert) → List String
  | [] => []
  | none :: rest => collectPatterns field rest
  | some level :: rest =>
      (if strOrListTruthy (field level) then normalizeToArray (field level) else [])
        ++ collectPatterns field rest

/-- Source embedding of `mergeTextAssert` (lists accumulate; an empty
accumulated list yields an absent field). -/
def mergeTextAssert (levels : List (Option TextAssert)) : TextAssert :=
  let mustMatch := collectPatterns (fun t => t.must_match) levels
  let mustNotMatch := collectPatterns (fun t => t.must_not_match) levels
  { must_match := if mustMatch.length > 0 then some (.list mustMatch) else none,
    must_not_match := if mustNotMatch.length > 0 then some (.list mustNotMatch) else none }

/-- Accumulation of the `forbid` arrays over the scope levels in order
(an absent array contributes nothing). -/
def collectForbid : List (Option ToolsAssert) → List String
  | [] => []
  | none :: rest => collectForbid rest
  | some level :: rest => level.forbid.getD [] ++ collectForbid rest

/-- Accumulation of the `require` arrays over the scope levels in order. -/
def collectRequire : List (Option ToolsAssert) → List RequireTool
  | [] => []
  | none :: rest => collectRequire rest
  | some level :: rest => level.require.getD [] ++ collectRequire rest

/-- Accumulation of the `forbid_calls` arrays over the scope levels in order. -/
def collectForbidCalls : List (Option ToolsAssert) → List ForbidCall
  | [] => []
  | none :: rest => collectForbidCalls rest
  | some level :: rest => level.forbid_calls.getD [] ++ collectForbidCalls rest

/-- Source embedding of `mergeToolsAssert` (arrays accumulate; empty
accumulated arrays yield absent fields). -/
def mergeToolsAssert (levels : List (Option ToolsAssert)) : ToolsAssert :=
  let forbid := collectForbid levels
  let require := collectRequire levels
  let forbidCalls := collectForbidCalls levels
  { forbid := if forbid.length > 0 then some forbid else none,
    require := if require.length > 0 then some require else none,
    forbid_calls := if forbidCalls.length > 0 then some forbidCalls else none }

/-- Source embedding of `mergeAssertBlocks`: merge each category over
target → test → turn. -/
def mergeAssertBlocks (target test turn : Option AssertBlock) : MergedAssertBlock :=
  { tools := mergeToolsAssert [target.bind (fun b => b.tools), test.bind (fun b => b.tools),
      turn.bind (fun b => b.tools)],
    timing := mergeTimingAssert [target.bind (fun b => b.timing), test.bind (fun b => b.timing),
      turn.bind (fun b => b.timing)],
    text := mergeTextAssert [target.bind (fun b => b.text), test.bind (fun b => b.text),
      turn.bind (fun b => b.text)] }

/-! ## Event reconstructor (`src/runner/turn.ts`, event-timestamped version)

`JSON.parse` is a platform primitive; the reconstructor takes it as the
parameter `jparse : String → Option Json`, where `none` models a thrown
`SyntaxError`. -/

/-- Kinds of protocol events handled by the reconstructor; `other` covers
every event type the `switch` ignores. -/
inductive EventKind where
  | textMessageContent (delta : String)
  | toolCallStart (toolCallId : String) (toolCallName : String)
  | toolCallArgs (toolCallId : String) (delta : String)
  | toolCallResult (toolCallId : String) (result : String)
  | runError (message : String)
  | other

/-- A protocol event with its arrival timestamp `_ts`. -/
structure TimestampedEvent where
  kind : EventKind
  ts : Int

/-- A tool call opened by `TOOL_CALL_START` and awaiting its result. -/
structure PendingToolCall where
  name : String
  argsBuffer : String
  startTs : Int

/-- `Map.prototype.get`. -/
def mapGet {α : Type} (m : List (String × α)) (k : String) : Option α :=
  ((m.find? (fun e => e.1 == k)).map (fun e => e.2))

/-- `Map.prototype.set`: update in place when the key exists (keeping its
position, as JavaScript maps do), otherwise append. -/
def mapSet {α : Type} (m : List (String × α)) (k : String) (v : α) : List (String × α) :=
  if m.any (fun e => e.1 == k) then
    m.map (fun e => if e.1 == k then (k, v) else e)
  else m ++ [(k, v)]

/-- `Map.prototype.delete`. -/
def mapDelete {α : Type} (m : List (String × α)) (k : String) : List (String × α) :=
  m.filter (fun e => !(e.1 == k))

/-- Mutable state of one turn's reconstruction. -/
structure TurnState where
  toolCalls : List ToolCall
  pending : List (String × PendingToolCall)
  assistantText : String

/-- The source string `'{}'` parsed when the argument buffer is empty
(`pending.argsBuffer || '{}'`). -/
def emptyObjSrc : String := String.mk ['\x7b', '\x7d']

/-- Source embedding of `handleEvent`: pure state transition per event;
`RUN_ERROR` throws (an execution failure), malformed argument buffers fall
back to an empty object, result payloads parse as JSON when possible and stay
raw strings otherwise. -/
def handleEvent (jparse : String → Option Json) (event : TimestampedEvent) (st : TurnState) :
    Except String TurnState :=
  match event.kind with
  | .textMessageContent delta =>
      .ok { st with assistantText := st.assistantText ++ delta }
  | .toolCallStart id name =>
      .ok { st with pending := mapSet st.pending id { name := name, argsBuffer := "", startTs := event.ts } }
  | .toolCallArgs id delta =>
      match mapGet st.pending id with
      | some pending =>
          .ok { st with pending := mapSet st.pending id { pending with argsBuffer := pending.argsBuffer ++ delta } }
      | none => .ok st
  | .toolCallResult id result =>
      match mapGet st.pending id with
      | some pending =>
          let args : Json :=
            match jparse (if pending.argsBuffer == "" then emptyObjSrc else pending.argsBuffer) with
            | some j => j
            | none => Json.obj []
          let parsedResult : Json :=
            match jparse result with
            | some j => j
            | none => Json.str result
          let call : ToolCall :=
            { name := pending.name, args := args, result := parsedResult, timestamp := event.ts }
          .ok { st with toolCalls := st.toolCalls ++ [call], pending := mapDelete st.pending id }
      | none => .ok st
  | .runError message => .error ("AG-UI run error: " ++ message)
  | .other => .ok st

/-- The data of one reconstructed turn. -/
structure TurnData where
  turnIndex : Nat
  toolCalls : List ToolCall
  assistantText : String
  startTs : Int
  endTs : Int

/-- Accumulator of `collectTurnData`: reconstruction state plus the first and
last event timestamps seen so far. -/
structure CollectAcc where
  state : TurnState
  startTs : Option Int
  endTs : Option Int

/-- The `for await` loop of `collectTurnData`: track first/last event
timestamps, then dispatch to `handleEvent`; a thrown error aborts. -/
def collectLoop (jparse : String → Option Json) :
    List TimestampedEvent → CollectAcc → Except String CollectAcc
  | [], acc => .ok acc
  | event :: rest, acc =>
      let startTs := some (acc.startTs.getD event.ts)
      let endTs := some event.ts
      match handleEvent jparse event acc.state with
      | .error m => .error m
      | .ok st => collectLoop jparse rest { state := st, startTs := startTs, endTs := endTs }

/-- Source embedding of `collectTurnData`: fold the event sequence; with no
events both timestamps fall back to the local clock (`now`). -/
def collectTurnData (jparse : String → Option Json) (events : List TimestampedEvent)
    (turnIndex : Nat) (now : Int) : Except String TurnData :=
  let st0 : TurnState := { toolCalls := [], pending := [], assistantText := "" }
  match collectLoop jparse events { state := st0, startTs := none, endTs := none } with
  | .error m => .error m
  | .ok acc =>
      .ok { turnIndex := turnIndex, toolCalls := acc.state.toolCalls,
            assistantText := acc.state.assistantText,
            startTs := acc.startTs.getD now, endTs := acc.endTs.getD now }

/-! ## Concrete scenario data -/

/-- A `JSON.parse` instance on which every parse fails; adequate wherever the
evaluation under scrutiny does not depend on parsed payloads. -/
def jparseNone : String → Option Json := fun _ => none

/-- First scenario call: `search({query: "hello world"})`. -/
def searchCallHello : ToolCall :=
  { name := "search", args := .obj [("query", .str "hello world")], result := .str "ok",
    timestamp := 1 }

/-- Second scenario call: `search({query: "goodbye"})`. -/
def searchCallGoodbye : ToolCall :=
  { name := "search", args := .obj [("query", .str "goodbye")], result := .str "ok",
    timestamp := 2 }

/-- The scenario entry `RequireTool{name:"search", args_match:{query:"hello"},
count:{exact:1}}`. -/
def searchRequire : RequireTool :=
  { name := "search", count := some (.exact 1), args_match := some [("query", "hello")] }

/-- The event sequence `[start("s")@100, result("s")@150]`. -/
def startResultEvents : List TimestampedEvent :=
  [{ kind := .toolCallStart "1" "s", ts := 100 },
   { kind := .toolCallResult "1" "ok", ts := 150 }]

/-! ## Helper lemmas -/

/-- Counting the kept elements of a guarded `filterMap` (guard keeps). -/
theorem length_filterMap_pos {α β : Type} (l : List α) (p : α → Bool) (g : α → β) :
    (l.filterMap (fun a => if p a then some (g a) else none)).length = (l.filter p).length := by
  induction l with
  | nil => rfl
  | cons a t ih =>
      by_cases h : p a <;> simp [List.filterMap_cons, List.filter_cons, h, ih]

/-- Counting the kept elements of a guarded `filterMap` (guard drops). -/
theorem length_filterMap_neg {α β : Type} (l : List α) (p : α → Bool) (g : α → β) :
    (l.filterMap (fun a => if p a then none else some (g a))).length =
      (l.filter (fun a => !p a)).length := by
  induction l with
  | nil => rfl
  | cons a t ih =>
      by_cases h : p a <;> simp [List.filterMap_cons, List.filter_cons, h, ih]

/-- An unset field never overwrites the accumulator. -/
theorem pickField_none_left (x : Option NumOrFalse) : pickField none x = x := rfl

/-- Overwriting an empty accumulator keeps the new value as-is. -/
theorem pickField_none_right (x : Option NumOrFalse) : pickField x none = x := by
  cases x <;> rfl

/-- An absent pattern field normalizes to no patterns. -/
theorem normalizeToArray_none : normalizeToArray none = [] := rfl

/-- The truthiness guard in `mergeTextAssert` is redundant: falsy fields
normalize to the empty list anyway. -/
theorem truthy_guard_normalize (v : Option StrOrList) :
    (if strOrListTruthy v then normalizeToArray v else []) = normalizeToArray v := by
  rcases v with _ | v
  · rfl
  · rcases v with s | l
    · by_cases h : s == "" <;> simp [strOrListTruthy, normalizeToArray, h]
    · rfl

/-- A character list without slashes has no last-slash split. -/
theorem splitLastSlash_of_no_slash :
    ∀ l : List Char, l.all (fun c => !(c == '/')) = true → splitLastSlash l = none := by
  intro l h
  induction l with
  | nil => rfl
  | cons c cs ih =>
      simp only [List.all_cons, Bool.and_eq_true] at h
      have hc : ¬c = '/' := by simpa using h.1
      simp [splitLastSlash, ih h.2, hc]

/-- Splitting at the last slash of `b ++ '/' :: f` when `f` has no further
slash returns `(b, f)`. -/
theorem splitLastSlash_append (b f : List Char) (hf : splitLastSlash f = none) :
    splitLastSlash (b ++ '/' :: f) = some (b, f) := by
  induction b with
  | nil => simp [splitLastSlash, hf]
  | cons c cs ih => simp [splitLastSlash, ih]

/-- Flag characters are never slashes. -/
theorem flagChar_no_slash (l : List Char) (h : l.all flagChar = true) :
    l.all (fun c => !(c == '/')) = true := by
  induction l with
  | nil => rfl
  | cons c cs ih =>
      simp only [List.all_cons, Bool.and_eq_true] at h ⊢
      refine ⟨?_, ih h.2⟩
      have hc : ¬c = '/' := by
        intro hce
        rw [hce] at h
        simp [flagChar] at h
      simp [hc]

/-! ## Claim theorems -/

/-- C1: evaluation of the source `assertRequiredTools` at the claim's
scenario.  The claim (with the specification and the repository's own test
suite) expects the name-selected calls to be narrowed by `args_match` before
the count constraint applies, giving zero failures; the source instead applies
`count` to all name-selected calls and checks `args_match` against every call,
producing exactly two failures here: the exact-count failure (2 calls, not 1)
and the per-call args failure for the `goodbye` call. -/
theorem c1_scenario_yields_two_failures :
    assertRequiredTools litRegexTest [searchCallHello, searchCallGoodbye] [searchRequire] =
      [{ passed := false, assertion := "Tool \"search\" count",
         expected := some "exactly 1", actual := some "2" },
       { passed := false, assertion := "Tool \"search\" arg \"query\" must match /hello/",
         expected := some "match /hello/", actual := some "goodbye" }] := by
  rfl

/-- C2 (counterexample): reconstructing `[start("s")@100, result("s")@150]`
finalizes the call at timestamp 150 (the result-arrival time), so the idle
failure over window `{0, 200}` with `max_idle_ms = 60` reports a 150ms gap —
not the 100ms gap the claim states. -/
theorem c2_counterexample :
    collectTurnData jparseNone startResultEvents 0 0 =
      .ok { turnIndex := 0,
            toolCalls := [{ name := "s", args := .obj [], result := .str "ok", timestamp := 150 }],
            assistantText := "", startTs := 100, endTs := 150 }
    ∧ assertTiming
        { startTs := 0, endTs := 200,
          toolCalls := [{ name := "s", args := .obj [], result := .str "ok", timestamp := 150 }] }
        { max_idle_ms := some (.num 60) } ≠
      [{ passed := false, assertion := "Idle constraint", expected := some "≤ 60ms",
         actual := some "100ms between \"start\" and \"s\"" }] := by
  exact ⟨rfl, by decide⟩

/-- C2 (amended): for the events `[start("s")@100, result("s")@150]` the
finalized `ToolCall` has timestamp 150 (the result-arrival time), and timing
over window `{0, 200}` with `max_idle_ms = 60` yields exactly one idle
failure, for the gap "start"→"s" of 150ms, with no failure for the gap
"s"→"end" of 50ms. -/
theorem c2_result_timestamp_and_single_idle_failure :
    ∀ jparse : String → Option Json,
      (match collectTurnData jparse startResultEvents 0 0 with
       | .ok td =>
           td.toolCalls.map (fun c => c.name) = ["s"]
           ∧ td.toolCalls.map (fun c => c.timestamp) = [150]
           ∧ assertTiming { startTs := 0, endTs := 200, toolCalls := td.toolCalls }
               { max_idle_ms := some (.num 60) } =
             [{ passed := false, assertion := "Idle constraint", expected := some "≤ 60ms",
                actual := some "150ms between \"start\" and \"s\"" }]
       | .error _ => False) :=
  fun _ => ⟨rfl, rfl, rfl⟩

/-- C7: the text evaluator produces one failure per normalized `must_match`
pattern that does not match the text and one per normalized `must_not_match`
pattern that does match; on "An error occurred" with
`must_not_match = ["error", "failed"]` exactly one failure (for "error") is
produced, and with `["failed"]` alone none. -/
theorem c7_text_failures_per_pattern :
    (∀ (engine : RegexEngine) (text : String) (constraints : TextAssert),
        (assertText engine text constraints).length =
          ((normalizeToArray constraints.must_match).filter
              (fun p => !matchesPattern engine (some (.str text)) p)).length
          + ((normalizeToArray constraints.must_not_match).filter
              (fun p => matchesPattern engine (some (.str text)) p)).length)
    ∧ assertText litEngine "An error occurred"
        { must_not_match := some (.list ["error", "failed"]) } =
      [{ passed := false, assertion := "Text must not match",
         expected := some "not match /error/", actual := some "An error occurred" }]
    ∧ assertText litEngine "An error occurred" { must_not_match := some (.list ["failed"]) } = [] := by
  refine ⟨fun engine text constraints => ?_, rfl, rfl⟩
  simp only [assertText, List.length_append, length_filterMap_pos, length_filterMap_neg]

/-- C3: the idle-gap computation always produces `N + 1` gaps for `N` tool
calls (for `N = 0` the single gap spans "start"→"end" over the whole window),
and with only `max_idle_ms = D` set and zero calls, exactly one idle failure
is emitted iff `endTs - startTs > D`. -/
theorem c3_gap_count_and_empty_window :
    ∀ (ctx : TimingContext) (D : Int),
      (computeIdleGaps ctx).length = ctx.toolCalls.length + 1
      ∧ (ctx.toolCalls = [] →
          computeIdleGaps ctx =
            [{ gapFrom := "start", gapTo := "end", duration := ctx.endTs - ctx.startTs }])
      ∧ (ctx.toolCalls = [] →
          ((assertTiming ctx { max_idle_ms := some (.num D) }).length = 1 ↔
            ctx.endTs - ctx.startTs > D)) := by
  have hgaps : ∀ (ctx : TimingContext) (prev : ToolCall) (l : List ToolCall),
      (gapsFrom ctx prev l).length = l.length + 1 := by
    intro ctx prev l
    induction l generalizing prev with
    | nil => rfl
    | cons c cs ih => simp [gapsFrom, ih]
  intro ctx D
  refine ⟨?_, fun h => ?_, fun h => ?_⟩
  · have hlen := List.length_insertionSort
      (r := fun a b : ToolCall => a.timestamp ≤ b.timestamp) ctx.toolCalls
    unfold computeIdleGaps
    rcases hs : List.insertionSort (fun a b : ToolCall => a.timestamp ≤ b.timestamp)
        ctx.toolCalls with _ | ⟨first, rest⟩ <;>
      rw [hs] at hlen
    · simp [← hlen]
    · simp [← hlen, hgaps]
  · simp [computeIdleGaps, h]
  · have hempty : computeIdleGaps ctx =
        [{ gapFrom := "start", gapTo := "end", duration := ctx.endTs - ctx.startTs }] := by
      simp [computeIdleGaps, h]
    by_cases hd : ctx.endTs - ctx.startTs > D
    · simp [assertTiming, hempty, hd]
    · simp [assertTiming, hempty, hd]

/-- C3 witness: with an empty call list over the window `[0, 10]` the gap list
is the single whole-window gap, and with `max_idle_ms = 4` exactly one idle
failure is produced (`10 - 0 > 4`). -/
theorem c3_witness :
    (computeIdleGaps { startTs := 0, endTs := 10, toolCalls := [] }).length = 0 + 1
    ∧ computeIdleGaps { startTs := 0, endTs := 10, toolCalls := [] } =
        [{ gapFrom := "start", gapTo := "end", duration := (10 : Int) - 0 }]
    ∧ ((assertTiming { startTs := 0, endTs := 10, toolCalls := [] }
          { max_idle_ms := some (.num 4) }).length = 1 ↔ (10 : Int) - 0 > 4) := by
  obtain ⟨h1, h2, h3⟩ := c3_gap_count_and_empty_window
    { startTs := 0, endTs := 10, toolCalls := [] } 4
  exact ⟨h1, h2 rfl, h3 rfl⟩

/-- C4: in the target→test→turn merge each timing scalar field independently
takes the value of the highest-precedence scope that explicitly sets it
(`pickField later earlier`, so an explicit `false` wins over an inherited
number and omitting scopes contribute nothing); in particular
`{max_duration_ms: 1000}` at target merged with `{max_duration_ms: false}` at
turn yields `false`. -/
theorem c4_timing_merge_per_field_override :
    (∀ t1 t2 t3 : Option TimingAssert,
        (mergeTimingAssert [t1, t2, t3]).max_duration_ms =
          pickField (t3.bind (fun t => t.max_duration_ms))
            (pickField (t2.bind (fun t => t.max_duration_ms))
              (t1.bind (fun t => t.max_duration_ms)))
        ∧ (mergeTimingAssert [t1, t2, t3]).max_idle_ms =
          pickField (t3.bind (fun t => t.max_idle_ms))
            (pickField (t2.bind (fun t => t.max_idle_ms))
              (t1.bind (fun t => t.max_idle_ms))))
    ∧ (mergeAssertBlocks
        (some { timing := some { max_duration_ms := some (.num 1000) } })
        none
        (some { timing := some { max_duration_ms := some .fls } })).timing.max_duration_ms
      = some .fls := by
  constructor
  · intro t1 t2 t3
    rcases t1 with _ | t1 <;> rcases t2 with _ | t2 <;> rcases t3 with _ | t3 <;>
      simp [mergeTimingAssert, mergeTimingGo, pickField_none_left, pickField_none_right]
  · rfl

/-- C5: merging tools/text array fields concatenates all scope values in
target→test→turn order, preserving order and duplicates (no deduplication) —
`forbid`, `require` and `forbid_calls` alike, and likewise the text pattern
lists; in particular merging `{forbid:[a]}`, `{forbid:[b]}`, `{forbid:[c]}`
yields effective forbid `[a, b, c]`. -/
theorem c5_merge_concatenates_arrays :
    (∀ l1 l2 l3 : Option ToolsAssert,
        ((mergeToolsAssert [l1, l2, l3]).forbid =
          (let cat := (l1.bind (fun t => t.forbid)).getD [] ++ (l2.bind (fun t => t.forbid)).getD []
            ++ (l3.bind (fun t => t.forbid)).getD [];
           if cat.length > 0 then some cat else none))
        ∧ ((mergeToolsAssert [l1, l2, l3]).require =
          (let cat := (l1.bind (fun t => t.require)).getD []
            ++ (l2.bind (fun t => t.require)).getD []
            ++ (l3.bind (fun t => t.require)).getD [];
           if cat.length > 0 then some cat else none))
        ∧ ((mergeToolsAssert [l1, l2, l3]).forbid_calls =
          (let cat := (l1.bind (fun t => t.forbid_calls)).getD []
            ++ (l2.bind (fun t => t.forbid_calls)).getD []
            ++ (l3.bind (fun t => t.forbid_calls)).getD [];
           if cat.length > 0 then some cat else none)))
    ∧ (∀ o1 o2 o3 : Option TextAssert,
        (mergeTextAssert [o1, o2, o3]).must_match =
          (let cat := normalizeToArray (o1.bind (fun t => t.must_match))
            ++ normalizeToArray (o2.bind (fun t => t.must_match))
            ++ normalizeToArray (o3.bind (fun t => t.must_match));
           if cat.length > 0 then some (.list cat) else none))
    ∧ (∀ a b c : String,
        (mergeAssertBlocks
          (some { tools := some { forbid := some [a] } })
          (some { tools := some { forbid := some [b] } })
          (some { tools := some { forbid := some [c] } })).tools.forbid = some [a, b, c]) := by
  refine ⟨fun l1 l2 l3 => ?_, fun o1 o2 o3 => ?_, fun a b c => rfl⟩
  · refine ⟨?_, ?_, ?_⟩ <;>
      rcases l1 with _ | l1 <;> rcases l2 with _ | l2 <;> rcases l3 with _ | l3 <;>
        simp [mergeToolsAssert, collectForbid, collectRequire, collectForbidCalls]
  · rcases o1 with _ | o1 <;> rcases o2 with _ | o2 <;> rcases o3 with _ | o3 <;>
      simp [mergeTextAssert, collectPatterns, truthy_guard_normalize, normalizeToArray_none]

/-- C6: a `require` entry whose name matches no call contributes exactly its
"0 calls" failure, whatever its other fields hold — in particular no ordering
failure is produced even when `after` names an absent predecessor — and the
surrounding entries are evaluated independently. -/
theorem c6_zero_calls_short_circuits
    (rtest : String → String → Bool) (toolCalls : List ToolCall)
    (l1 l2 : List RequireTool) (req : RequireTool)
    (h : toolCalls.filter (fun tc => tc.name == req.name) = []) :
    assertRequiredTools rtest toolCalls (l1 ++ req :: l2) =
      assertRequiredTools rtest toolCalls l1
        ++ [{ passed := false, assertion := "Tool \"" ++ req.name ++ "\" must be called",
              expected := some "at least 1 call", actual := some "0 calls" }]
        ++ assertRequiredTools rtest toolCalls l2 := by
  have hentry : assertRequireEntry rtest toolCalls req =
      [{ passed := false, assertion := "Tool \"" ++ req.name ++ "\" must be called",
         expected := some "at least 1 call", actual := some "0 calls" }] := by
    unfold assertRequireEntry
    rw [h]
    rfl
  unfold assertRequiredTools
  rw [List.flatMap_append, List.flatMap_cons, hentry]
  simp

/-- C6 witness: the entry requires "search" after "pred"; neither tool was
ever called, and exactly the single "0 calls" failure is produced. -/
theorem c6_witness :
    ([({ name := "other", args := .obj [], result := .str "ok", timestamp := 5 } : ToolCall)].filter
        (fun tc => tc.name == ({ name := "search", after := some "pred" } : RequireTool).name) = [])
    ∧ assertRequiredTools litRegexTest
        [{ name := "other", args := .obj [], result := .str "ok", timestamp := 5 }]
        ([] ++ ({ name := "search", after := some "pred" } : RequireTool) :: []) =
      assertRequiredTools litRegexTest
          [{ name := "other", args := .obj [], result := .str "ok", timestamp := 5 }] []
        ++ [{ passed := false, assertion := "Tool \"search\" must be called",
              expected := some "at least 1 call", actual := some "0 calls" }]
        ++ assertRequiredTools litRegexTest
            [{ name := "other", args := .obj [], result := .str "ok", timestamp := 5 }] [] := by
  refine ⟨rfl, ?_⟩
  exact c6_zero_calls_short_circuits litRegexTest
    [{ name := "other", args := .obj [], result := .str "ok", timestamp := 5 }]
    [] [] { name := "search", after := some "pred" } rfl

/-- C8: the pattern matcher stringifies its value (strings pass through,
`null` and `undefined` become literal tokens, everything else is
JSON-serialized) and parses its pattern so that a pattern not starting with
`/` is a regex source with no flags, `/body/flags` is the source `body` with
flags drawn only from gimsuy, and a leading `/` without a matching trailing
`/flags` (such as "/hello") is a literal regex source; the literal-source
regex model is unanchored substring search. -/
theorem c8_stringify_and_parse_pattern :
    (∀ s : String, stringify (some (.str s)) = s)
    ∧ stringify (some .null) = "null"
    ∧ stringify none = "undefined"
    ∧ (∀ j : Json, (∀ s, j ≠ .str s) → stringify (some j) = jsonStringify j)
    ∧ (∀ s : String, s.data.head? ≠ some '/' → parsePattern s = (s, ""))
    ∧ (∀ body flags : String, body ≠ "" → body.data.all dotChar = true →
        flags.data.all flagChar = true →
        parsePattern ("/" ++ body ++ "/" ++ flags) = (body, flags))
    ∧ parsePattern "/hello" = ("/hello", "")
    ∧ (∀ s1 p s2 flags : String, litEngine p flags (s1 ++ p ++ s2) = true) := by
  refine ⟨fun s => rfl, rfl, rfl, fun j hj => ?_, fun s hs => ?_, fun body flags hb hdot hflag => ?_,
    rfl, fun s1 p s2 flags => ?_⟩
  · cases j with
    | str s => exact absurd rfl (hj s)
    | num n => rfl
    | bool b => rfl
    | null => rfl
    | arr xs => rfl
    | obj kvs => rfl
  · unfold parsePattern
    split
    · rename_i heq
      rw [heq] at hs
      simp at hs
    · rfl
  · have hdata : ("/" ++ body ++ "/" ++ flags).data = '/' :: (body.data ++ '/' :: flags.data) := by
      simp [String.data_append]
    have hsplit : splitLastSlash (body.data ++ '/' :: flags.data) = some (body.data, flags.data) :=
      splitLastSlash_append body.data flags.data
        (splitLastSlash_of_no_slash flags.data (flagChar_no_slash flags.data hflag))
    have hne : body.data.isEmpty = false := by
      rcases hd : body.data with _ | _
      · exact absurd (by cases body with | mk d => simp at hd; simp [hd]) hb
      · rfl
    unfold parsePattern
    rw [hdata]
    simp [hsplit, hne, hdot, hflag]
  · have : p.data <:+: (s1 ++ p ++ s2).data := by
      rw [String.data_append, String.data_append]
      exact ⟨s1.data, s2.data, by simp⟩
    simp [litEngine, litRegexTest, this]

/-- C8 witness: a number stringifies through `jsonStringify`, a bare pattern
is a flagless regex source, and `/hello/i` parses into source and flag. -/
theorem c8_witness :
    stringify (some (.num 5)) = jsonStringify (.num 5)
    ∧ parsePattern "abc" = ("abc", "")
    ∧ parsePattern ("/" ++ "hello" ++ "/" ++ "i") = ("hello", "i") := by
  obtain ⟨-, -, -, h4, h5, h6, -, -⟩ := c8_stringify_and_parse_pattern
  exact ⟨h4 (.num 5) (fun s h => Json.noConfusion h), h5 "abc" (by decide),
    h6 "hello" "i" (by decide) (by decide) (by decide)⟩

/-- C9: a `TOOL_CALL_RESULT` event whose pending argument buffer does not
parse as JSON finalizes the call with empty-object args and an `.ok` state
(never an execution failure); the result payload is the parsed JSON when
parsing succeeds and the raw string otherwise. -/
theorem c9_malformed_args_recover_as_empty_object
    (jparse : String → Option Json) (st : TurnState) (id resStr : String) (ts : Int)
    (pending : PendingToolCall)
    (hget : mapGet st.pending id = some pending)
    (hbad : jparse (if pending.argsBuffer == "" then emptyObjSrc else pending.argsBuffer) = none) :
    handleEvent jparse { kind := .toolCallResult id resStr, ts := ts } st =
      .ok { st with
            toolCalls := st.toolCalls ++
              [{ name := pending.name,
                 args := .obj [],
                 result := match jparse resStr with | some j => j | none => .str resStr,
                 timestamp := ts }],
            pending := mapDelete st.pending id } := by
  simp only [beq_iff_eq] at hbad
  simp [handleEvent, hget, hbad]

/-- C9 witness: with every parse failing, the result event for the pending
buffer "not json" finalizes with empty args, raw-string result and an `.ok`
state. -/
theorem c9_witness :
    mapGet ([("1", ({ name := "s", argsBuffer := "not json", startTs := 100 } : PendingToolCall))])
        "1" = some { name := "s", argsBuffer := "not json", startTs := 100 }
    ∧ jparseNone "not json" = none
    ∧ handleEvent jparseNone { kind := .toolCallResult "1" "ok", ts := 150 }
        { toolCalls := [],
          pending := [("1", { name := "s", argsBuffer := "not json", startTs := 100 })],
          assistantText := "" } =
      .ok { toolCalls := [{ name := "s", args := .obj [], result := .str "ok", timestamp := 150 }],
            pending := [], assistantText := "" } := by
  refine ⟨rfl, rfl, ?_⟩
  exact c9_malformed_args_recover_as_empty_object jparseNone
    { toolCalls := [],
      pending := [("1", { name := "s", argsBuffer := "not json", startTs := 100 })],
      assistantText := "" }
    "1" "ok" 150 { name := "s", argsBuffer := "not json", startTs := 100 } rfl rfl

/-- One reconstruction step either leaves the finalized calls unchanged or
appends exactly one call stamped with the event's arrival time. -/
theorem handleEvent_toolCalls (jparse : String → Option Json) (e : TimestampedEvent)
    (st st' : TurnState) (h : handleEvent jparse e st = .ok st') :
    st'.toolCalls = st.toolCalls
    ∨ ∃ c : ToolCall, st'.toolCalls = st.toolCalls ++ [c] ∧ c.timestamp = e.ts := by
  cases hk : e.kind with
  | textMessageContent delta =>
      simp [handleEvent, hk] at h
      exact Or.inl (by rw [← h])
  | toolCallStart id name =>
      simp [handleEvent, hk] at h
      exact Or.inl (by rw [← h])
  | toolCallArgs id delta =>
      rcases hm : mapGet st.pending id with _ | p <;> simp [handleEvent, hk, hm] at h <;>
        exact Or.inl (by rw [← h])
  | toolCallResult id result =>
      rcases hm : mapGet st.pending id with _ | p
      · simp [handleEvent, hk, hm] at h
        exact Or.inl (by rw [← h])
      · simp only [handleEvent, hk, hm] at h
        have h' := (Except.ok.injEq _ _).mp h
        refine Or.inr
          ⟨{ name := p.name,
             args := match jparse (if p.argsBuffer == "" then emptyObjSrc else p.argsBuffer) with
                     | some j => j
                     | none => Json.obj [],
             result := match jparse result with | some j => j | none => Json.str result,
             timestamp := e.ts }, ?_, rfl⟩
        rw [← h']
  | runError message => simp [handleEvent, hk] at h
  | other =>
      simp [handleEvent, hk] at h
      exact Or.inl (by rw [← h])

/-- Invariant of the reconstruction loop: along a time-ordered event stream
the finalized calls stay sorted by timestamp and bounded by the last arrival
time, and the tracked window start never exceeds the window end. -/
theorem collectLoop_invariant (jparse : String → Option Json) :
    ∀ (events : List TimestampedEvent) (acc : CollectAcc) (t : Int) (out : CollectAcc),
      List.Chain' (fun a b => a.ts ≤ b.ts) events →
      (∀ e : TimestampedEvent, events.head? = some e → t ≤ e.ts) →
      List.Pairwise (fun a b : ToolCall => a.timestamp ≤ b.timestamp) acc.state.toolCalls →
      (∀ c ∈ acc.state.toolCalls, c.timestamp ≤ t) →
      ((acc.startTs = none ∧ acc.endTs = none) ∨
        (∃ s en, acc.startTs = some s ∧ acc.endTs = some en ∧ s ≤ en ∧ en ≤ t)) →
      collectLoop jparse events acc = .ok out →
      List.Pairwise (fun a b : ToolCall => a.timestamp ≤ b.timestamp) out.state.toolCalls ∧
        ((out.startTs = none ∧ out.endTs = none) ∨
          (∃ s en, out.startTs = some s ∧ out.endTs = some en ∧ s ≤ en)) := by
  intro events
  induction events with
  | nil =>
      intro acc t out _ _ hpw _ hts hloop
      obtain rfl : acc = out := by simpa [collectLoop] using hloop
      refine ⟨hpw, ?_⟩
      rcases hts with h | ⟨s, en, h1, h2, h3, _⟩
      · exact Or.inl h
      · exact Or.inr ⟨s, en, h1, h2, h3⟩
  | cons e es ih =>
      intro acc t out hchain hfirst hpw hbound hts hloop
      have hte : t ≤ e.ts := hfirst e rfl
      obtain ⟨hhead, hchain'⟩ := List.chain'_cons'.mp hchain
      simp only [collectLoop] at hloop
      rcases hev : handleEvent jparse e acc.state with m | st'
      · rw [hev] at hloop
        simp at hloop
      · rw [hev] at hloop
        have hcalls := handleEvent_toolCalls jparse e acc.state st' hev
        have hpw' : List.Pairwise (fun a b : ToolCall => a.timestamp ≤ b.timestamp)
            st'.toolCalls := by
          rcases hcalls with hsame | ⟨c, happ, hts'⟩
          · rw [hsame]; exact hpw
          · rw [happ]
            refine List.pairwise_append.mpr ⟨hpw, List.pairwise_singleton _ _, ?_⟩
            intro a ha b hb
            have hb' : b = c := by simpa using hb
            rw [hb', hts']
            exact le_trans (hbound a ha) hte
        have hbound' : ∀ c ∈ st'.toolCalls, c.timestamp ≤ e.ts := by
          rcases hcalls with hsame | ⟨c, happ, hts'⟩
          · rw [hsame]
            exact fun c hc => le_trans (hbound c hc) hte
          · rw [happ]
            intro c' hc'
            rcases List.mem_append.mp hc' with hmem | hmem
            · exact le_trans (hbound c' hmem) hte
            · have : c' = c := by simpa using hmem
              rw [this, hts']
        have hts' : (some (acc.startTs.getD e.ts) = none ∧ (some e.ts : Option Int) = none) ∨
            (∃ s en, some (acc.startTs.getD e.ts) = some s ∧ (some e.ts : Option Int) = some en ∧
              s ≤ en ∧ en ≤ e.ts) := by
          refine Or.inr ⟨acc.startTs.getD e.ts, e.ts, rfl, rfl, ?_, le_refl _⟩
          rcases hts with ⟨h1, _⟩ | ⟨s, en, h1, _, h3, h4⟩
          · rw [h1]; exact le_refl _
          · rw [h1]
            exact le_trans h3 (le_trans h4 hte)
        exact ih { state := st', startTs := some (acc.startTs.getD e.ts), endTs := some e.ts }
          e.ts out hchain' (fun e' he' => hhead e' he') hpw' hbound' hts' hloop

/-- C10: for every event sequence with nondecreasing arrival timestamps, the
reconstructed turn's tool calls are ordered by nondecreasing timestamp
(finalization order is result-event arrival order) and its window start does
not exceed its window end. -/
theorem c10_toolCalls_sorted_and_window_ordered
    (jparse : String → Option Json) (events : List TimestampedEvent) (turnIndex : Nat)
    (now : Int) (td : TurnData)
    (hchain : List.Chain' (fun a b => a.ts ≤ b.ts) events)
    (hok : collectTurnData jparse events turnIndex now = .ok td) :
    List.Pairwise (fun a b : ToolCall => a.timestamp ≤ b.timestamp) td.toolCalls
    ∧ td.startTs ≤ td.endTs := by
  simp only [collectTurnData] at hok
  rcases hloop : collectLoop jparse events
      { state := { toolCalls := [], pending := [], assistantText := "" },
        startTs := none, endTs := none } with m | acc
  · rw [hloop] at hok
    simp at hok
  · rw [hloop] at hok
    have htd := (Except.ok.injEq _ _).mp hok
    obtain ⟨hpw, hts⟩ := collectLoop_invariant jparse events
      { state := { toolCalls := [], pending := [], assistantText := "" },
        startTs := none, endTs := none }
      ((events.head?.map (fun e => e.ts)).getD 0) acc hchain
      (fun e he => by rw [he]; exact le_refl _)
      List.Pairwise.nil (by intro c hc; simp at hc) (Or.inl ⟨rfl, rfl⟩) hloop
    constructor
    · rw [← htd]
      exact hpw
    · rw [← htd]
      rcases hts with ⟨h1, h2⟩ | ⟨s, en, h1, h2, h3⟩
      · simp [h1, h2]
      · simpa [h1, h2] using h3

/-- C10 witness: on the nondecreasing sequence `[start@100, result@150]` the
reconstruction yields calls sorted by timestamp (one call at 150) and window
`[100, 150]`. -/
theorem c10_witness :
    List.Chain' (fun a b : TimestampedEvent => a.ts ≤ b.ts) startResultEvents
    ∧ (List.Pairwise (fun a b : ToolCall => a.timestamp ≤ b.timestamp)
        ({ turnIndex := 0,
           toolCalls := [{ name := "s", args := .obj [], result := .str "ok", timestamp := 150 }],
           assistantText := "", startTs := 100, endTs := 150 } : TurnData).toolCalls
      ∧ ({ turnIndex := 0,
           toolCalls := [{ name := "s", args := .obj [], result := .str "ok", timestamp := 150 }],
           assistantText := "", startTs := 100, endTs := 150 } : TurnData).startTs ≤
        ({ turnIndex := 0,
           toolCalls := [{ name := "s", args := .obj [], result := .str "ok", timestamp := 150 }],
           assistantText := "", startTs := 100, endTs := 150 } : TurnData).endTs) := by
  have hchain : List.Chain' (fun a b : TimestampedEvent => a.ts ≤ b.ts) startResultEvents := by
    simp [startResultEvents]
  exact ⟨hchain, c10_toolCalls_sorted_and_window_ordered jparseNone startResultEvents 0 0
    { turnIndex := 0,
      toolCalls := [{ name := "s", args := .obj [], result := .str "ok", timestamp := 150 }],
      assistantText := "", startTs := 100, endTs := 150 } hchain rfl⟩

end Ananke
